import Mathlib

/-!
Shallow embedding of `packages/ag-grid-enterprise/src/charts/scene/shape/shape.ts`:
the abstract `Shape` scene-graph node with its change-tracked style attributes,
the three restore operations over the chained default-style tables, the
`applyContextAttributes` method writing onto a `CanvasRenderingContext2D` sink,
and the hit-testing contract.

Modelling conventions:
* JS numbers are modelled as `Rat` (the relevant operations are equality tests,
  comparisons against `0`/`1` and `Math.min`/`Math.max` clamping, all exact here).
* `undefined` is modelled as `Option.none`.
* JS string/array/object values are modelled structurally.  Reference equality
  (`!==`) on strings and numbers is value equality.  For arrays (`lineDash`)
  reference equality refines structural equality; both the reference-equal path
  and the deep-equal path of the setter leave the shape unchanged, so the
  observable behaviour is captured by structural comparison.  For `DropShadow`
  objects a `ref` field stands for object identity: distinct allocations carry
  distinct `ref`s, so structural equality of the model coincides with JS
  reference equality.
* The `CanvasRenderingContext2D` sink is modelled as the trace (list) of
  property assignments performed by `applyContextAttributes`, in order.
-/

set_option autoImplicit false

namespace AgScene

/-- `DropShadow` value object (external collaborator): exposes `color`,
`offset.x`, `offset.y`, `blur`.  The `ref` field models JS object identity. -/
structure DropShadow where
  ref : Nat
  color : String
  offsetX : Rat
  offsetY : Rat
  blur : Rat
deriving DecidableEq

/-- `ShapeLineCap = null | 'round' | 'square'` — `none` stands for `null` (butt). -/
inductive LineCapVal where
  | round
  | square
deriving DecidableEq

/-- `ShapeLineJoin = null | 'round' | 'bevel'` — `none` stands for `null` (miter). -/
inductive LineJoinVal where
  | round
  | bevel
deriving DecidableEq

/-- The state of a `Shape` instance: the private backing fields `_fill`,
`_stroke`, `_strokeWidth`, `_lineDash`, `_lineDashOffset`, `_lineCap`,
`_lineJoin`, `_opacity`, `_shadow`, and the `dirty` flag owned by the `Node`
base class (created `false`, set `true` by the setters).  Field defaults mirror
`Shape.defaultStyles` in the source. -/
structure Shape where
  fill : Option String := some "black"
  stroke : Option String := none
  strokeWidth : Rat := 0
  lineDash : Option (List Rat) := none
  lineDashOffset : Rat := 0
  lineCap : Option LineCapVal := none
  lineJoin : Option LineJoinVal := none
  opacity : Rat := 1
  shadow : Option DropShadow := none
  dirty : Bool := false
deriving DecidableEq

/-- `set fill(value)` (shape.ts:69-74): `if (this._fill !== value) { this._fill = value; this.dirty = true; }` -/
def setFill (s : Shape) (value : Option String) : Shape :=
  if s.fill ≠ value then { s with fill := value, dirty := true } else s

/-- `set stroke(value)` (shape.ts:90-95). -/
def setStroke (s : Shape) (value : Option String) : Shape :=
  if s.stroke ≠ value then { s with stroke := value, dirty := true } else s

/-- `set strokeWidth(value)` (shape.ts:101-106). -/
def setStrokeWidth (s : Shape) (value : Rat) : Shape :=
  if s.strokeWidth ≠ value then { s with strokeWidth := value, dirty := true } else s

/-- The element-by-element loop of the `lineDash` setter (shape.ts:117-124):
given two arrays of equal length it reports whether every pair of elements at
the same index compares equal. -/
def elemsEq : List Rat → List Rat → Bool
  | [], [] => true
  | x :: xs, y :: ys => decide (x = y) && elemsEq xs ys
  | _, _ => false

/-- `set lineDash(value)` (shape.ts:112-132): skips when the reference is
unchanged; when both old and new are present and of equal length, runs the
element loop and returns without storing when all elements are identical;
otherwise stores the new value and arms `dirty`. -/
def setLineDash (s : Shape) (value : Option (List Rat)) : Shape :=
  let oldValue := s.lineDash
  if oldValue ≠ value then
    match oldValue, value with
    | some o, some v =>
      if o.length = v.length then
        if elemsEq o v then s
        else { s with lineDash := value, dirty := true }
      else { s with lineDash := value, dirty := true }
    | _, _ => { s with lineDash := value, dirty := true }
  else s

/-- `set lineDashOffset(value)` (shape.ts:138-143). -/
def setLineDashOffset (s : Shape) (value : Rat) : Shape :=
  if s.lineDashOffset ≠ value then { s with lineDashOffset := value, dirty := true } else s

/-- `set lineCap(value)` (shape.ts:149-154). -/
def setLineCap (s : Shape) (value : Option LineCapVal) : Shape :=
  if s.lineCap ≠ value then { s with lineCap := value, dirty := true } else s

/-- `set lineJoin(value)` (shape.ts:160-165). -/
def setLineJoin (s : Shape) (value : Option LineJoinVal) : Shape :=
  if s.lineJoin ≠ value then { s with lineJoin := value, dirty := true } else s

/-- `Math.min` on two (finite) numbers. -/
def mathMin (a b : Rat) : Rat := if a ≤ b then a else b

/-- `Math.max` on two (finite) numbers. -/
def mathMax (a b : Rat) : Rat := if a ≤ b then b else a

/-- `set opacity(value)` (shape.ts:171-177):
`value = Math.min(1, Math.max(0, value));` then compare-and-store. -/
def setOpacity (s : Shape) (value : Rat) : Shape :=
  let v := mathMin 1 (mathMax 0 value)
  if s.opacity ≠ v then { s with opacity := v, dirty := true } else s

/-- `set shadow(value)` (shape.ts:183-188). -/
def setShadow (s : Shape) (value : Option DropShadow) : Shape :=
  if s.shadow ≠ value then { s with shadow := value, dirty := true } else s

/-- JS truthiness of a paint value (`string | undefined`): `undefined` and the
empty string are falsy, every other string is truthy. -/
def truthyPaint : Option String → Bool
  | some p => decide (p ≠ "")
  | none => false

/-- One property assignment on the `CanvasRenderingContext2D` sink. -/
inductive CtxOp where
  | fillStyle : String → CtxOp
  | strokeStyle : String → CtxOp
  | lineWidth : Rat → CtxOp
  | setLineDash : List Rat → CtxOp
  | lineDashOffset : Rat → CtxOp
  | lineCap : LineCapVal → CtxOp
  | lineJoin : LineJoinVal → CtxOp
  | globalAlpha : Rat → CtxOp
  | shadowColor : String → CtxOp
  | shadowOffsetX : Rat → CtxOp
  | shadowOffsetY : Rat → CtxOp
  | shadowBlur : Rat → CtxOp
deriving DecidableEq

/-- `if (this.fill) { ctx.fillStyle = this.fill; }` (shape.ts:194-196). -/
def fillOps (s : Shape) : List CtxOp :=
  match s.fill with
  | some f => if f ≠ "" then [CtxOp.fillStyle f] else []
  | none => []

/-- `if (this.stroke) { ... }` (shape.ts:197-212): outline paint, line width,
then the conditional dash / dash-offset / cap / join assignments. -/
def strokeOps (s : Shape) : List CtxOp :=
  match s.stroke with
  | some st =>
    if st ≠ "" then
      CtxOp.strokeStyle st :: CtxOp.lineWidth s.strokeWidth ::
        ((match s.lineDash with
          | some d => [CtxOp.setLineDash d]
          | none => [])
         ++ (if s.lineDashOffset ≠ 0 then [CtxOp.lineDashOffset s.lineDashOffset] else [])
         ++ (match s.lineCap with
          | some c => [CtxOp.lineCap c]
          | none => [])
         ++ (match s.lineJoin with
          | some j => [CtxOp.lineJoin j]
          | none => []))
    else []
  | none => []

/-- `if (this.opacity < 1) { ctx.globalAlpha = this.opacity; }` (shape.ts:213-215). -/
def alphaOps (s : Shape) : List CtxOp :=
  if s.opacity < 1 then [CtxOp.globalAlpha s.opacity] else []

/-- `if (shadow) { ... }` (shape.ts:217-223). -/
def shadowOps (s : Shape) : List CtxOp :=
  match s.shadow with
  | some sh => [CtxOp.shadowColor sh.color, CtxOp.shadowOffsetX sh.offsetX,
      CtxOp.shadowOffsetY sh.offsetY, CtxOp.shadowBlur sh.blur]
  | none => []

/-- `applyContextAttributes(ctx)` (shape.ts:193-224) as the ordered trace of
sink assignments. -/
def applyContextAttributes (s : Shape) : List CtxOp :=
  fillOps s ++ strokeOps s ++ alphaOps s ++ shadowOps s

/-- The abstract hit-testing contract of a concrete shape variant:
`isPointInPath` and `isPointInStroke` (shape.ts:230-231), given in the node's
local coordinate space. -/
structure HitTester where
  isPointInPath : Rat → Rat → Bool
  isPointInStroke : Rat → Rat → Bool

/-- `isPointInNode(x, y)` (shape.ts:226-228): delegates to `isPointInPath`. -/
def isPointInNode (h : HitTester) (x y : Rat) : Bool :=
  h.isPointInPath x y

/-- The names of the style attributes managed by `Shape`. -/
inductive AttrName where
  | fill
  | stroke
  | strokeWidth
  | lineDash
  | lineDashOffset
  | lineCap
  | lineJoin
  | opacity
  | shadow
deriving DecidableEq

/-- A style value as stored in a default-style table. -/
inductive StyleValue where
  | paint : Option String → StyleValue
  | num : Rat → StyleValue
  | dash : Option (List Rat) → StyleValue
  | capV : Option LineCapVal → StyleValue
  | joinV : Option LineJoinVal → StyleValue
  | shadowV : Option DropShadow → StyleValue
deriving DecidableEq

/-- Reading the instance attribute named `a` (through the getters). -/
def getAttr (s : Shape) : AttrName → StyleValue
  | .fill => .paint s.fill
  | .stroke => .paint s.stroke
  | .strokeWidth => .num s.strokeWidth
  | .lineDash => .dash s.lineDash
  | .lineDashOffset => .num s.lineDashOffset
  | .lineCap => .capV s.lineCap
  | .lineJoin => .joinV s.lineJoin
  | .opacity => .num s.opacity
  | .shadow => .shadowV s.shadow

/-- The dynamic assignment `(this as any)[name] = value` used by the restore
operations: it dispatches to the setter for `name`.  The TypeScript setters are
typed, and every registered default table is well typed attribute-by-attribute
(see `entryOk`), so the type-mismatch branches cannot arise from a registered
table; they are modelled as no-ops. -/
def setAttr (s : Shape) : AttrName → StyleValue → Shape
  | .fill, .paint p => setFill s p
  | .stroke, .paint p => setStroke s p
  | .strokeWidth, .num q => setStrokeWidth s q
  | .lineDash, .dash d => setLineDash s d
  | .lineDashOffset, .num q => setLineDashOffset s q
  | .lineCap, .capV c => setLineCap s c
  | .lineJoin, .joinV j => setLineJoin s j
  | .opacity, .num q => setOpacity s q
  | .shadow, .shadowV sh => setShadow s sh
  | _, _ => s

/-- One default-style table: the attribute defaults declared *directly* by one
variant (its own enumerable properties, in declaration order). -/
abbrev Layer := List (AttrName × StyleValue)

/-- Modelled from the spec: the prototype chain built by the (external)
`chainObjects` utility — "an explicit per-variant table plus an explicit
parent-table reference".  The head is the variant's own table, the tail the
tables of its ancestors, nearest first; the root `{}` table is the empty chain. -/
abbrev Chain := List Layer

/-- First value for `a` among the table's own properties (JS own-property
lookup; object keys are unique, so first = only). -/
def lookupLayer : Layer → AttrName → Option StyleValue
  | [], _ => none
  | (k, v) :: rest, a => if k = a then some v else lookupLayer rest a

/-- `styles[name]`: prototype-chain property lookup, the most derived table
winning on collision. -/
def chainLookup : Chain → AttrName → Option StyleValue
  | [], _ => none
  | L :: rest, a =>
    match lookupLayer L a with
    | some v => some v
    | none => chainLookup rest a

/-- The key list of one table. -/
def layerKeys (L : Layer) : List AttrName :=
  L.map Prod.fst

/-- `Object.getOwnPropertyNames(styles)`: the keys declared directly by the
variant's own table. -/
def ownKeys : Chain → List AttrName
  | [] => []
  | L :: _ => layerKeys L

/-- The own keys of `Object.getPrototypeOf(styles)`: the keys declared directly
by the *immediate parent's* table. -/
def protoOwnKeys : Chain → List AttrName
  | _ :: P :: _ => layerKeys P
  | _ => []

/-- The enumeration order of `for..in` over a prototype chain: own enumerable
keys first, then each ancestor's keys, skipping names already visited.  `seen`
accumulates the visited names. -/
def dedupKeysAux (seen : List AttrName) : List AttrName → List AttrName
  | [] => []
  | k :: rest =>
    if k ∈ seen then dedupKeysAux seen rest
    else k :: dedupKeysAux (k :: seen) rest

/-- All names visited by `for (const property in styles)`. -/
def forInKeys (c : Chain) : List AttrName :=
  dedupKeysAux [] ((c.map layerKeys).flatten)

/-- One iteration of a restore loop: `(this as any)[key] = styles[key]`. -/
def assignFromChain (c : Chain) (st : Shape) (k : AttrName) : Shape :=
  match chainLookup c k with
  | some v => setAttr st k v
  | none => st

/-- `restoreOwnStyles()` (shape.ts:32-44): assign, for every own key of the
variant's table, the looked-up default onto the instance. -/
def restoreOwnStyles (s : Shape) (c : Chain) : Shape :=
  (ownKeys c).foldl (assignFromChain c) s

/-- `restoreAllStyles()` (shape.ts:46-52): `for..in` over the whole chain,
assigning the resolved default for every enumerated name. -/
def restoreAllStyles (s : Shape) (c : Chain) : Shape :=
  (forInKeys c).foldl (assignFromChain c) s

/-- `restoreOverriddenStyles()` (shape.ts:57-66): `for..in` over the chain,
keeping only the names for which `styles.hasOwnProperty(property)` and
`protoStyles.hasOwnProperty(property)` both hold, i.e. names declared directly
by this variant's table *and* directly by its immediate parent's table. -/
def restoreOverriddenStyles (s : Shape) (c : Chain) : Shape :=
  ((forInKeys c).filter
      (fun k => decide (k ∈ ownKeys c) && decide (k ∈ protoOwnKeys c))).foldl
    (assignFromChain c) s

/-- A table entry is well typed for its attribute name (mirrors the TypeScript
types of the setters), and an `opacity` default lies in `[0,1]` (as every
registered default does, so that storing it through the clamping setter keeps
it unchanged). -/
def entryOk : AttrName × StyleValue → Bool
  | (.fill, .paint _) => true
  | (.stroke, .paint _) => true
  | (.strokeWidth, .num _) => true
  | (.lineDash, .dash _) => true
  | (.lineDashOffset, .num _) => true
  | (.lineCap, .capV _) => true
  | (.lineJoin, .joinV _) => true
  | (.opacity, .num q) => decide (0 ≤ q) && decide (q ≤ 1)
  | (.shadow, .shadowV _) => true
  | _ => false

/-- A registered default-style chain: every entry of every table is well typed. -/
def validChain (c : Chain) : Prop :=
  ∀ L ∈ c, ∀ e ∈ L, entryOk e = true

instance (c : Chain) : Decidable (validChain c) := by
  unfold validChain
  exact List.decidableBAll _ c

/-- The own-table lookup used to state what `restoreOwnStyles` assigns. -/
def ownLookup : Chain → AttrName → Option StyleValue
  | [], _ => none
  | L :: _, a => lookupLayer L a

/-- The `lineDash` equality rule as the claim states it: both old and new are
present sequences of equal length whose elements are pairwise equal, or old and
new are the same value. -/
def lineDashUnchangedSpec (old new : Option (List Rat)) : Prop :=
  (∃ o n, old = some o ∧ new = some n ∧ o.length = n.length ∧
    ∀ (i : Nat) (h1 : i < o.length) (h2 : i < n.length), o.get ⟨i, h1⟩ = n.get ⟨i, h2⟩)
  ∨ old = new

/-- Modelled from the spec: `isOverride(variant, name)` — true if `name` exists
in both the variant's own table and *some ancestor's* table.  Stated for
comparison with what `restoreOverriddenStyles` actually checks. -/
def isOverrideSpec (c : Chain) (a : AttrName) : Prop :=
  a ∈ ownKeys c ∧ ∃ L ∈ c.tail, a ∈ layerKeys L

/-- The stroke-dependent sink assignments: outline paint, line width, dash
pattern, dash offset, line cap, line join. -/
def strokeKind : CtxOp → Bool
  | .strokeStyle _ => true
  | .lineWidth _ => true
  | .setLineDash _ => true
  | .lineDashOffset _ => true
  | .lineCap _ => true
  | .lineJoin _ => true
  | _ => false

/-- The shadow sink assignments. -/
def shadowKind : CtxOp → Bool
  | .shadowColor _ => true
  | .shadowOffsetX _ => true
  | .shadowOffsetY _ => true
  | .shadowBlur _ => true
  | _ => false

/-- The interior-paint sink assignment. -/
def fillKind : CtxOp → Bool
  | .fillStyle _ => true
  | _ => false

/-- The base `Shape.defaultStyles` table (shape.ts:17-27). -/
def defaultStyles : Layer :=
  [(.fill, .paint (some "black")),
   (.stroke, .paint none),
   (.strokeWidth, .num 0),
   (.lineDash, .dash none),
   (.lineDashOffset, .num 0),
   (.lineCap, .capV none),
   (.lineJoin, .joinV none),
   (.opacity, .num 1),
   (.shadow, .shadowV none)]

/-- A subclass declaring only `{strokeWidth: 2}` on top of the base defaults. -/
def subStrokeWidthChain : Chain :=
  [[(.strokeWidth, .num 2)], defaultStyles]

/-- A subclass redeclaring only `fill` on top of the base defaults. -/
def subFillChain : Chain :=
  [[(.fill, .paint (some "red"))], defaultStyles]

/-- A three-level chain: the grandparent declares `fill`, the middle variant
declares only `strokeWidth`, and the leaf variant redeclares `fill`. -/
def threeLevelChain : Chain :=
  [[(.fill, .paint (some "red"))],
   [(.strokeWidth, .num 2)],
   [(.fill, .paint (some "black"))]]

/-- A fully customised shape instance used as a concrete evaluation point. -/
def exShape : Shape :=
  { fill := some "red", stroke := some "green", strokeWidth := 3,
    lineDash := some [4, 5], lineDashOffset := 6, lineCap := some .round,
    lineJoin := some .bevel, opacity := 1, shadow := some ⟨0, "gray", 1, 2, 3⟩ }

/-! ### Helper lemmas -/

theorem elemsEq_iff (o : List Rat) : ∀ v, elemsEq o v = true ↔ o = v := by
  induction o with
  | nil => intro v; cases v <;> simp [elemsEq]
  | cons x xs ih =>
    intro v
    cases v with
    | nil => simp [elemsEq]
    | cons y ys => simp [elemsEq, ih]

/-- The observable behaviour of the `lineDash` setter: no-op exactly on deep
equality, store-and-arm otherwise. -/
theorem setLineDash_eq (s : Shape) (v : Option (List Rat)) :
    setLineDash s v = if s.lineDash = v then s else { s with lineDash := v, dirty := true } := by
  by_cases h : s.lineDash = v
  · simp [setLineDash, h]
  · rw [if_neg h]
    unfold setLineDash
    rw [if_pos h]
    rcases ho : s.lineDash with _ | o
    · rcases hv : v with _ | n <;> rfl
    · rcases hv : v with _ | n
      · rfl
      · have hne : elemsEq o n = false := by
          rw [← Bool.not_eq_true, elemsEq_iff]
          intro hc
          exact h (by rw [ho, hv, hc])
        simp [hne]

theorem lineDashUnchangedSpec_iff (old new : Option (List Rat)) :
    lineDashUnchangedSpec old new ↔ old = new := by
  constructor
  · rintro (⟨o, n, rfl, rfl, hlen, hpt⟩ | h)
    · exact congrArg some (List.ext_get hlen hpt)
    · exact h
  · intro h
    exact Or.inr h

theorem clamp_eq_self {q : Rat} (h0 : 0 ≤ q) (h1 : q ≤ 1) : mathMin 1 (mathMax 0 q) = q := by
  unfold mathMin mathMax
  rw [if_pos h0]
  split
  · exact le_antisymm (by assumption) h1
  · rfl

/-- The observable behaviour of the `opacity` setter. -/
theorem setOpacity_eq (s : Shape) (q : Rat) :
    setOpacity s q =
      if s.opacity = mathMin 1 (mathMax 0 q) then s
      else { s with opacity := mathMin 1 (mathMax 0 q), dirty := true } := by
  simp [setOpacity, ite_not]

/-- A setter leaves every attribute other than its own unchanged. -/
theorem getAttr_setAttr_ne (s : Shape) {a b : AttrName} (v : StyleValue) (h : a ≠ b) :
    getAttr (setAttr s a v) b = getAttr s b := by
  cases a <;> cases b <;> (try exact absurd rfl h) <;> cases v <;> (try rfl) <;>
    simp only [setAttr, setFill, setStroke, setStrokeWidth, setLineDash_eq,
      setLineDashOffset, setLineCap, setLineJoin, setOpacity_eq, setShadow] <;>
    split <;> rfl

/-- Storing a well-typed, in-range default through its setter makes the
attribute read back as that default. -/
theorem getAttr_setAttr_self (s : Shape) (a : AttrName) (v : StyleValue)
    (h : entryOk (a, v) = true) : getAttr (setAttr s a v) a = v := by
  cases a <;> cases v <;> simp only [entryOk] at h <;> (try cases h) <;>
    simp only [setAttr, setFill, setStroke, setStrokeWidth, setLineDash_eq,
      setLineDashOffset, setLineCap, setLineJoin, setOpacity_eq, setShadow] <;>
    split <;> simp_all [getAttr, clamp_eq_self]

theorem lookupLayer_mem {L : Layer} {a : AttrName} {v : StyleValue}
    (h : lookupLayer L a = some v) : (a, v) ∈ L := by
  induction L with
  | nil => cases h
  | cons e rest ih =>
    rcases e with ⟨k, w⟩
    unfold lookupLayer at h
    split at h
    · rename_i hk
      subst hk
      cases h
      exact List.mem_cons_self _ _
    · exact List.mem_cons_of_mem _ (ih h)

theorem lookupLayer_eq_none {L : Layer} {a : AttrName} :
    lookupLayer L a = none ↔ a ∉ layerKeys L := by
  induction L with
  | nil => simp [lookupLayer, layerKeys]
  | cons e rest ih =>
    rcases e with ⟨k, w⟩
    unfold lookupLayer
    by_cases hk : k = a
    · simp [hk, layerKeys]
    · simp [hk, layerKeys, ih, Ne.symm hk]

theorem mem_layerKeys_of_lookup {L : Layer} {a : AttrName} {v : StyleValue}
    (h : lookupLayer L a = some v) : a ∈ layerKeys L :=
  List.mem_map.mpr ⟨(a, v), lookupLayer_mem h, rfl⟩

theorem entryOk_of_chainLookup {c : Chain} {b : AttrName} {v : StyleValue}
    (hc : validChain c) (hl : chainLookup c b = some v) : entryOk (b, v) = true := by
  induction c with
  | nil => cases hl
  | cons L rest ih =>
    cases hL : lookupLayer L b with
    | some w =>
      simp only [chainLookup, hL] at hl
      cases hl
      exact hc L (List.mem_cons_self _ _) _ (lookupLayer_mem hL)
    | none =>
      simp only [chainLookup, hL] at hl
      exact ih (fun L' hL' => hc L' (List.mem_cons_of_mem _ hL')) hl

theorem chainLookup_of_ownLookup {c : Chain} {b : AttrName} {v : StyleValue}
    (h : ownLookup c b = some v) : chainLookup c b = some v := by
  cases c with
  | nil => cases h
  | cons L rest =>
    simp only [ownLookup] at h
    simp only [chainLookup, h]

theorem getAttr_foldl_not_mem (c : Chain) (b : AttrName) :
    ∀ (ks : List AttrName) (s : Shape), b ∉ ks →
      getAttr (ks.foldl (assignFromChain c) s) b = getAttr s b := by
  intro ks
  induction ks with
  | nil => intro s _; rfl
  | cons k rest ih =>
    intro s h
    have hb : b ∉ rest := fun hr => h (List.mem_cons_of_mem _ hr)
    have hk : k ≠ b := fun he => h (he ▸ List.mem_cons_self _ _)
    rw [List.foldl_cons, ih _ hb]
    cases hcl : chainLookup c k with
    | none => simp only [assignFromChain, hcl]
    | some v =>
      simp only [assignFromChain, hcl]
      exact getAttr_setAttr_ne s v hk

theorem getAttr_foldl_mem {c : Chain} (hc : validChain c) {b : AttrName} {v : StyleValue}
    (hl : chainLookup c b = some v) :
    ∀ (ks : List AttrName) (s : Shape), b ∈ ks →
      getAttr (ks.foldl (assignFromChain c) s) b = v := by
  intro ks
  induction ks with
  | nil => intro s h; cases h
  | cons k rest ih =>
    intro s h
    rw [List.foldl_cons]
    by_cases hb : b ∈ rest
    · exact ih _ hb
    · have hk : k = b := by
        rcases List.mem_cons.mp h with h' | h'
        · exact h'.symm
        · exact absurd h' hb
      subst hk
      rw [getAttr_foldl_not_mem c k rest _ hb]
      simp only [assignFromChain, hl]
      exact getAttr_setAttr_self s k v (entryOk_of_chainLookup hc hl)

theorem mem_dedupKeysAux (b : AttrName) :
    ∀ (l seen : List AttrName), b ∈ dedupKeysAux seen l ↔ b ∈ l ∧ b ∉ seen := by
  intro l
  induction l with
  | nil => intro seen; simp [dedupKeysAux]
  | cons k rest ih =>
    intro seen
    unfold dedupKeysAux
    by_cases hk : k ∈ seen
    · rw [if_pos hk, ih]
      constructor
      · rintro ⟨h1, h2⟩
        exact ⟨List.mem_cons_of_mem _ h1, h2⟩
      · rintro ⟨h1, h2⟩
        rcases List.mem_cons.mp h1 with rfl | h1
        · exact absurd hk h2
        · exact ⟨h1, h2⟩
    · rw [if_neg hk]
      constructor
      · intro h
        rcases List.mem_cons.mp h with rfl | h
        · exact ⟨List.mem_cons_self _ _, hk⟩
        · rcases (ih _).mp h with ⟨h1, h2⟩
          exact ⟨List.mem_cons_of_mem _ h1, fun hb => h2 (List.mem_cons_of_mem _ hb)⟩
      · rintro ⟨h1, h2⟩
        rcases List.mem_cons.mp h1 with rfl | h1
        · exact List.mem_cons_self _ _
        · by_cases hbk : b = k
          · subst hbk; exact List.mem_cons_self _ _
          · refine List.mem_cons_of_mem _ ((ih _).mpr ⟨h1, ?_⟩)
            intro hb
            rcases List.mem_cons.mp hb with h' | h'
            · exact hbk h'
            · exact h2 h'

theorem mem_forInKeys (c : Chain) (b : AttrName) :
    b ∈ forInKeys c ↔ b ∈ (c.map layerKeys).flatten := by
  unfold forInKeys
  rw [mem_dedupKeysAux]
  simp

theorem chainLookup_none_iff (b : AttrName) (c : Chain) :
    chainLookup c b = none ↔ b ∉ (c.map layerKeys).flatten := by
  induction c with
  | nil => simp [chainLookup]
  | cons L rest ih =>
    simp only [List.map_cons, List.flatten_cons, List.mem_append]
    cases hL : lookupLayer L b with
    | none =>
      simp only [chainLookup, hL]
      rw [ih]
      have hnk : b ∉ layerKeys L := lookupLayer_eq_none.mp hL
      tauto
    | some w =>
      simp only [chainLookup, hL]
      have hk : b ∈ layerKeys L := mem_layerKeys_of_lookup hL
      simp [hk]

theorem lookup_of_mem_layerKeys {L : Layer} {a : AttrName} (h : a ∈ layerKeys L) :
    ∃ v, lookupLayer L a = some v := by
  cases hL : lookupLayer L a with
  | none => exact absurd h (lookupLayer_eq_none.mp hL)
  | some v => exact ⟨v, rfl⟩

/-! ### Trace lemmas for `applyContextAttributes` -/

theorem fillOps_eq_nil {s : Shape} (h : truthyPaint s.fill = false) : fillOps s = [] := by
  unfold fillOps
  cases hf : s.fill with
  | none => rfl
  | some p =>
    have hp : p = "" := by simpa [truthyPaint, hf] using h
    simp [hp]

theorem strokeOps_eq_nil {s : Shape} (h : truthyPaint s.stroke = false) : strokeOps s = [] := by
  unfold strokeOps
  cases hst : s.stroke with
  | none => rfl
  | some p =>
    have hp : p = "" := by simpa [truthyPaint, hst] using h
    simp [hp]

theorem mem_fillOps_kind {s : Shape} {op : CtxOp} (hm : op ∈ fillOps s) : fillKind op = true := by
  rcases hf : s.fill with _ | f
  · simp [fillOps, hf] at hm
  · by_cases he : f = ""
    · simp [fillOps, hf, he] at hm
    · simp [fillOps, hf, he] at hm
      simp [hm, fillKind]

theorem mem_strokeOps_kind {s : Shape} {op : CtxOp} (hm : op ∈ strokeOps s) :
    strokeKind op = true := by
  unfold strokeOps at hm
  split at hm
  · split at hm
    · rcases List.mem_cons.mp hm with rfl | hm
      · rfl
      rcases List.mem_cons.mp hm with rfl | hm
      · rfl
      rcases List.mem_append.mp hm with hm | hm
      · rcases List.mem_append.mp hm with hm | hm
        · rcases List.mem_append.mp hm with hm | hm
          · split at hm <;> simp_all [strokeKind]
          · split at hm <;> simp_all [strokeKind]
        · split at hm <;> simp_all [strokeKind]
      · split at hm <;> simp_all [strokeKind]
    · cases hm
  · cases hm

theorem mem_alphaOps {s : Shape} {op : CtxOp} (hm : op ∈ alphaOps s) :
    op = CtxOp.globalAlpha s.opacity := by
  unfold alphaOps at hm
  split at hm
  · simpa using hm
  · cases hm

theorem mem_shadowOps_kind {s : Shape} {op : CtxOp} (hm : op ∈ shadowOps s) :
    shadowKind op = true := by
  unfold shadowOps at hm
  split at hm
  · simp at hm
    rcases hm with rfl | rfl | rfl | rfl <;> rfl
  · cases hm

theorem strokeKind_disjoint {op : CtxOp} (hk : strokeKind op = true) :
    fillKind op = false ∧ shadowKind op = false ∧ ∀ q, op ≠ CtxOp.globalAlpha q := by
  cases op <;> simp_all [strokeKind, fillKind, shadowKind]

theorem fillKind_disjoint {op : CtxOp} (hk : fillKind op = true) :
    strokeKind op = false ∧ shadowKind op = false ∧ ∀ q, op ≠ CtxOp.globalAlpha q := by
  cases op <;> simp_all [strokeKind, fillKind, shadowKind]

/-- With a falsy stroke paint, no stroke-dependent assignment reaches the sink. -/
theorem strokeKind_not_mem {s : Shape} {op : CtxOp}
    (h : truthyPaint s.stroke = false) (hk : strokeKind op = true) :
    op ∉ applyContextAttributes s := by
  intro hm
  unfold applyContextAttributes at hm
  rw [strokeOps_eq_nil h] at hm
  rcases List.mem_append.mp hm with hm | hm
  · rcases List.mem_append.mp hm with hm | hm
    · rcases List.mem_append.mp hm with hm | hm
      · have hf := mem_fillOps_kind hm
        rw [(strokeKind_disjoint hk).1] at hf
        cases hf
      · cases hm
    · exact absurd (mem_alphaOps hm) ((strokeKind_disjoint hk).2.2 _)
  · have := mem_shadowOps_kind hm
    rw [(strokeKind_disjoint hk).2.1] at this
    cases this

/-- With a falsy fill paint, no interior-paint assignment reaches the sink. -/
theorem fillKind_not_mem {s : Shape} {op : CtxOp}
    (h : truthyPaint s.fill = false) (hk : fillKind op = true) :
    op ∉ applyContextAttributes s := by
  intro hm
  unfold applyContextAttributes at hm
  rw [fillOps_eq_nil h] at hm
  rcases List.mem_append.mp hm with hm | hm
  · rcases List.mem_append.mp hm with hm | hm
    · rcases List.mem_append.mp hm with hm | hm
      · cases hm
      · have := mem_strokeOps_kind hm
        rw [(fillKind_disjoint hk).1] at this
        cases this
    · exact absurd (mem_alphaOps hm) ((fillKind_disjoint hk).2.2 _)
  · have := mem_shadowOps_kind hm
    rw [(fillKind_disjoint hk).2.1] at this
    cases this

/-- With a truthy stroke paint, the sink receives the outline paint and the
current stroke width. -/
theorem strokeStyle_lineWidth_mem {s : Shape} {p : String}
    (hst : s.stroke = some p) (hp : p ≠ "") :
    CtxOp.strokeStyle p ∈ applyContextAttributes s ∧
    CtxOp.lineWidth s.strokeWidth ∈ applyContextAttributes s := by
  constructor <;> simp [applyContextAttributes, strokeOps, hst, hp]

theorem applyContext_fill_empty {s : Shape} (h : s.fill = some "") :
    applyContextAttributes s = applyContextAttributes { s with fill := none } := by
  unfold applyContextAttributes
  have h1 : fillOps s = [] := by simp [fillOps, h]
  have h2 : fillOps { s with fill := none } = [] := by simp [fillOps]
  rw [h1, h2]
  rfl

theorem applyContext_stroke_empty {s : Shape} (h : s.stroke = some "") :
    applyContextAttributes s = applyContextAttributes { s with stroke := none } := by
  unfold applyContextAttributes
  have h1 : strokeOps s = [] := strokeOps_eq_nil (by simp [truthyPaint, h])
  have h2 : strokeOps { s with stroke := none } = [] := rfl
  rw [h1, h2]
  rfl

/-! ### Claim theorems -/

/-- C1: for every shape instance and every pair of lineDash values, the
lineDash setter treats the new value as unchanged (stores nothing, does not arm
dirty) exactly when both old and new are present sequences of equal length
whose elements are pairwise equal, or when old and new are the same value; in
every other case it stores the new value and arms the dirty flag. -/
theorem lineDash_setter_spec (s : Shape) (v : Option (List Rat)) :
    (lineDashUnchangedSpec s.lineDash v → setLineDash s v = s) ∧
    (¬ lineDashUnchangedSpec s.lineDash v →
      setLineDash s v = { s with lineDash := v, dirty := true }) := by
  rw [setLineDash_eq]
  constructor
  · intro h
    rw [if_pos ((lineDashUnchangedSpec_iff _ _).mp h)]
  · intro h
    rw [if_neg (fun he => h ((lineDashUnchangedSpec_iff _ _).mpr he))]

/-- Witness for C1: `[1,2,3]` then a fresh `[1,2,3]` is a no-op; `[1,2,4]`,
unsetting, and setting from unset each store and arm dirty. -/
theorem lineDash_setter_spec_witness :
    setLineDash { lineDash := some [1, 2, 3] } (some [1, 2, 3]) =
      { lineDash := some [1, 2, 3] } ∧
    setLineDash { lineDash := some [1, 2, 3] } (some [1, 2, 4]) =
      { lineDash := some [1, 2, 4], dirty := true } ∧
    setLineDash { lineDash := some [1, 2, 3] } none =
      { lineDash := none, dirty := true } ∧
    setLineDash { lineDash := none } (some [1, 2, 3]) =
      { lineDash := some [1, 2, 3], dirty := true } := by
  refine ⟨?_, ?_, ?_, ?_⟩
  · exact (lineDash_setter_spec _ _).1
      (Or.inl ⟨[1, 2, 3], [1, 2, 3], rfl, rfl, rfl, fun i h1 h2 => rfl⟩)
  · exact (lineDash_setter_spec _ _).2
      (fun h => absurd ((lineDashUnchangedSpec_iff _ _).mp h) (by decide))
  · exact (lineDash_setter_spec _ _).2
      (fun h => absurd ((lineDashUnchangedSpec_iff _ _).mp h) (by decide))
  · exact (lineDash_setter_spec _ _).2
      (fun h => absurd ((lineDashUnchangedSpec_iff _ _).mp h) (by decide))

/-- C4: the opacity setter clamps the input to `[0,1]` first, then compares and
stores the clamped value: `1.5` stores `1`, `-0.2` stores `0`, and a call whose
clamped value equals the already-stored value stores nothing and does not arm
the dirty flag. -/
theorem opacity_setter_clamps (s : Shape) (q : Rat) :
    (setOpacity s q).opacity = mathMin 1 (mathMax 0 q) ∧
    (mathMin 1 (mathMax 0 q) = s.opacity → setOpacity s q = s) ∧
    (mathMin 1 (mathMax 0 q) ≠ s.opacity →
      setOpacity s q = { s with opacity := mathMin 1 (mathMax 0 q), dirty := true }) ∧
    (setOpacity s (mkRat 3 2)).opacity = 1 ∧
    (setOpacity s (mkRat (-1) 5)).opacity = 0 := by
  have h1 : ∀ r : Rat, (setOpacity s r).opacity = mathMin 1 (mathMax 0 r) := by
    intro r
    rw [setOpacity_eq]
    split
    · rename_i h
      exact h
    · rfl
  refine ⟨h1 q, ?_, ?_, (h1 _).trans (by decide), (h1 _).trans (by decide)⟩
  · intro h
    rw [setOpacity_eq, if_pos h.symm]
  · intro h
    rw [setOpacity_eq, if_neg (fun he => h he.symm)]

/-- Witness for C4 at concrete inputs. -/
theorem opacity_setter_clamps_witness :
    (setOpacity { opacity := mkRat 1 2 } (mkRat 3 2)).opacity = 1 ∧
    setOpacity { opacity := 1 } 1 = { opacity := 1 } ∧
    setOpacity { opacity := 1 } (mkRat 3 2) = { opacity := 1 } ∧
    setOpacity { opacity := mkRat 1 2 } 2 = { opacity := 1, dirty := true } := by
  refine ⟨(opacity_setter_clamps _ _).1.trans (by decide),
    (opacity_setter_clamps _ _).2.1 (by decide),
    (opacity_setter_clamps _ _).2.1 (by decide),
    ((opacity_setter_clamps _ _).2.2.1 (by decide)).trans (by decide)⟩

/-- C5: for every attribute, calling the setter with a value equal to the
current stored value under that attribute's equality rule leaves the stored
value, the dirty flag, and every other attribute of the shape unchanged (the
result is the very same state). -/
theorem setters_noop_on_equal (s : Shape) :
    setFill s s.fill = s ∧
    setStroke s s.stroke = s ∧
    setStrokeWidth s s.strokeWidth = s ∧
    (∀ v, lineDashUnchangedSpec s.lineDash v → setLineDash s v = s) ∧
    setLineDashOffset s s.lineDashOffset = s ∧
    setLineCap s s.lineCap = s ∧
    setLineJoin s s.lineJoin = s ∧
    (∀ q, mathMin 1 (mathMax 0 q) = s.opacity → setOpacity s q = s) ∧
    setShadow s s.shadow = s := by
  refine ⟨?_, ?_, ?_, ?_, ?_, ?_, ?_, ?_, ?_⟩
  · simp [setFill]
  · simp [setStroke]
  · simp [setStrokeWidth]
  · intro v h
    rw [setLineDash_eq, if_pos ((lineDashUnchangedSpec_iff _ _).mp h)]
  · simp [setLineDashOffset]
  · simp [setLineCap]
  · simp [setLineJoin]
  · intro q h
    rw [setOpacity_eq, if_pos h.symm]
  · simp [setShadow]

/-- Witness for C5 on a concrete customised shape. -/
theorem setters_noop_on_equal_witness :
    setFill exShape (some "red") = exShape ∧
    setLineDash exShape (some [4, 5]) = exShape ∧
    setOpacity exShape 2 = exShape ∧
    setShadow exShape (some ⟨0, "gray", 1, 2, 3⟩) = exShape := by
  obtain ⟨h1, h2, h3, h4, h5, h6, h7, h8, h9⟩ := setters_noop_on_equal exShape
  exact ⟨h1, h4 _ (Or.inr rfl), h8 2 (by decide), h9⟩

/-- C6: for every attribute, calling the setter with a value that differs from
the current stored value under that attribute's equality rule stores the new
value and sets the dirty flag to true, and an identical re-assignment of the
same value afterwards changes nothing further. -/
theorem setters_store_and_arm (s : Shape) :
    (∀ v, s.fill ≠ v → setFill s v = { s with fill := v, dirty := true } ∧
      setFill (setFill s v) v = setFill s v) ∧
    (∀ v, s.stroke ≠ v → setStroke s v = { s with stroke := v, dirty := true } ∧
      setStroke (setStroke s v) v = setStroke s v) ∧
    (∀ v, s.strokeWidth ≠ v → setStrokeWidth s v = { s with strokeWidth := v, dirty := true } ∧
      setStrokeWidth (setStrokeWidth s v) v = setStrokeWidth s v) ∧
    (∀ v, ¬ lineDashUnchangedSpec s.lineDash v →
      setLineDash s v = { s with lineDash := v, dirty := true } ∧
      setLineDash (setLineDash s v) v = setLineDash s v) ∧
    (∀ v, s.lineDashOffset ≠ v →
      setLineDashOffset s v = { s with lineDashOffset := v, dirty := true } ∧
      setLineDashOffset (setLineDashOffset s v) v = setLineDashOffset s v) ∧
    (∀ v, s.lineCap ≠ v → setLineCap s v = { s with lineCap := v, dirty := true } ∧
      setLineCap (setLineCap s v) v = setLineCap s v) ∧
    (∀ v, s.lineJoin ≠ v → setLineJoin s v = { s with lineJoin := v, dirty := true } ∧
      setLineJoin (setLineJoin s v) v = setLineJoin s v) ∧
    (∀ q, mathMin 1 (mathMax 0 q) ≠ s.opacity →
      setOpacity s q = { s with opacity := mathMin 1 (mathMax 0 q), dirty := true } ∧
      setOpacity (setOpacity s q) q = setOpacity s q) ∧
    (∀ v, s.shadow ≠ v → setShadow s v = { s with shadow := v, dirty := true } ∧
      setShadow (setShadow s v) v = setShadow s v) := by
  refine ⟨?_, ?_, ?_, ?_, ?_, ?_, ?_, ?_, ?_⟩
  · intro v h
    have h1 : setFill s v = { s with fill := v, dirty := true } := by
      unfold setFill
      rw [if_pos h]
    exact ⟨h1, by rw [h1]; simp [setFill]⟩
  · intro v h
    have h1 : setStroke s v = { s with stroke := v, dirty := true } := by
      unfold setStroke
      rw [if_pos h]
    exact ⟨h1, by rw [h1]; simp [setStroke]⟩
  · intro v h
    have h1 : setStrokeWidth s v = { s with strokeWidth := v, dirty := true } := by
      unfold setStrokeWidth
      rw [if_pos h]
    exact ⟨h1, by rw [h1]; simp [setStrokeWidth]⟩
  · intro v h
    have hne : s.lineDash ≠ v := fun he => h ((lineDashUnchangedSpec_iff _ _).mpr he)
    have h1 : setLineDash s v = { s with lineDash := v, dirty := true } := by
      rw [setLineDash_eq, if_neg hne]
    exact ⟨h1, by rw [h1, setLineDash_eq]; simp [setLineDash_eq]⟩
  · intro v h
    have h1 : setLineDashOffset s v = { s with lineDashOffset := v, dirty := true } := by
      unfold setLineDashOffset
      rw [if_pos h]
    exact ⟨h1, by rw [h1]; simp [setLineDashOffset]⟩
  · intro v h
    have h1 : setLineCap s v = { s with lineCap := v, dirty := true } := by
      unfold setLineCap
      rw [if_pos h]
    exact ⟨h1, by rw [h1]; simp [setLineCap]⟩
  · intro v h
    have h1 : setLineJoin s v = { s with lineJoin := v, dirty := true } := by
      unfold setLineJoin
      rw [if_pos h]
    exact ⟨h1, by rw [h1]; simp [setLineJoin]⟩
  · intro q h
    have h1 : setOpacity s q = { s with opacity := mathMin 1 (mathMax 0 q), dirty := true } := by
      rw [setOpacity_eq, if_neg (fun he => h he.symm)]
    exact ⟨h1, by rw [h1, setOpacity_eq]; simp [setOpacity_eq]⟩
  · intro v h
    have h1 : setShadow s v = { s with shadow := v, dirty := true } := by
      unfold setShadow
      rw [if_pos h]
    exact ⟨h1, by rw [h1]; simp [setShadow]⟩

/-- Witness for C6 on a concrete customised shape. -/
theorem setters_store_and_arm_witness :
    setStrokeWidth exShape 9 = { exShape with strokeWidth := 9, dirty := true } ∧
    setStrokeWidth (setStrokeWidth exShape 9) 9 = setStrokeWidth exShape 9 ∧
    setLineDash exShape (some [4, 5, 6]) =
      { exShape with lineDash := some [4, 5, 6], dirty := true } ∧
    setOpacity exShape (mkRat 1 2) = { exShape with opacity := mkRat 1 2, dirty := true } := by
  obtain ⟨g1, g2, g3, g4, g5, g6, g7, g8, g9⟩ := setters_store_and_arm exShape
  refine ⟨(g3 9 (by decide)).1, (g3 9 (by decide)).2,
    (g4 _ (fun h => absurd ((lineDashUnchangedSpec_iff _ _).mp h) (by decide))).1, ?_⟩
  exact ((g8 (mkRat 1 2) (by decide)).1).trans (by decide)

/-- C9: the generic point-in-node query returns exactly the same boolean as the
fill hit-test (`isPointInPath`) for the same coordinates. -/
theorem isPointInNode_eq_fill_test (h : HitTester) (x y : Rat) :
    isPointInNode h x y = h.isPointInPath x y := rfl

/-- Counterexample to C3 as stated: with `stroke` set to the (stored, set)
empty string and `strokeWidth = 5`, the sink receives neither the stroke paint
nor a line-width assignment, although the claim requires both whenever stroke
is set. -/
theorem stroke_set_empty_counterexample :
    (({ stroke := some "", strokeWidth := 5 } : Shape)).stroke.isSome = true ∧
    CtxOp.strokeStyle "" ∉ applyContextAttributes { stroke := some "", strokeWidth := 5 } ∧
    CtxOp.lineWidth 5 ∉ applyContextAttributes { stroke := some "", strokeWidth := 5 } ∧
    applyContextAttributes { stroke := some "", strokeWidth := 5 } =
      [CtxOp.fillStyle "black"] := by
  decide

/-- C3 (amended): `applyContextAttributes` writes stroke-dependent attributes
to the sink only when the stroke paint is set to a non-empty string: if stroke
is unset or the empty string the sink receives no line-width (nor dash,
dash-offset, cap, join, or stroke-paint) assignment regardless of strokeWidth;
if stroke is set to a non-empty string the sink receives both the stroke paint
and the current strokeWidth, including a zero line width when strokeWidth is 0. -/
theorem applyContext_stroke_gating (s : Shape) :
    (truthyPaint s.stroke = false →
      (∀ p, CtxOp.strokeStyle p ∉ applyContextAttributes s) ∧
      (∀ q, CtxOp.lineWidth q ∉ applyContextAttributes s) ∧
      (∀ d, CtxOp.setLineDash d ∉ applyContextAttributes s) ∧
      (∀ q, CtxOp.lineDashOffset q ∉ applyContextAttributes s) ∧
      (∀ k, CtxOp.lineCap k ∉ applyContextAttributes s) ∧
      (∀ j, CtxOp.lineJoin j ∉ applyContextAttributes s)) ∧
    (∀ p, s.stroke = some p → p ≠ "" →
      CtxOp.strokeStyle p ∈ applyContextAttributes s ∧
      CtxOp.lineWidth s.strokeWidth ∈ applyContextAttributes s) := by
  constructor
  · intro h
    exact ⟨fun p => strokeKind_not_mem h rfl, fun q => strokeKind_not_mem h rfl,
      fun d => strokeKind_not_mem h rfl, fun q => strokeKind_not_mem h rfl,
      fun k => strokeKind_not_mem h rfl, fun j => strokeKind_not_mem h rfl⟩
  · intro p hst hp
    exact strokeStyle_lineWidth_mem hst hp

/-- Witness for the amended C3: no line width with an unset stroke and width 5;
stroke paint plus a zero line width with a set non-empty stroke. -/
theorem applyContext_stroke_gating_witness :
    CtxOp.lineWidth 5 ∉ applyContextAttributes { strokeWidth := 5 } ∧
    CtxOp.strokeStyle "green" ∈
      applyContextAttributes { stroke := some "green", strokeWidth := 0 } ∧
    CtxOp.lineWidth 0 ∈
      applyContextAttributes { stroke := some "green", strokeWidth := 0 } := by
  have h1 := (applyContext_stroke_gating { strokeWidth := 5 }).1 (by decide)
  have h2 := (applyContext_stroke_gating { stroke := some "green", strokeWidth := 0 }).2
    "green" rfl (by decide)
  exact ⟨h1.2.1 5, h2.1, h2.2⟩

/-- C10: an empty-string paint behaves exactly like an unset paint at the sink
interface: with `fill = ""` the trace equals the trace with fill unset and no
interior paint is assigned; with `stroke = ""` the trace equals the trace with
stroke unset and none of the stroke paint, line width, dash, dash offset, cap,
or join is assigned. -/
theorem applyContext_empty_paint (s : Shape) :
    (s.fill = some "" →
      applyContextAttributes s = applyContextAttributes { s with fill := none } ∧
      ∀ p, CtxOp.fillStyle p ∉ applyContextAttributes s) ∧
    (s.stroke = some "" →
      applyContextAttributes s = applyContextAttributes { s with stroke := none } ∧
      (∀ p, CtxOp.strokeStyle p ∉ applyContextAttributes s) ∧
      (∀ q, CtxOp.lineWidth q ∉ applyContextAttributes s) ∧
      (∀ d, CtxOp.setLineDash d ∉ applyContextAttributes s) ∧
      (∀ q, CtxOp.lineDashOffset q ∉ applyContextAttributes s) ∧
      (∀ k, CtxOp.lineCap k ∉ applyContextAttributes s) ∧
      (∀ j, CtxOp.lineJoin j ∉ applyContextAttributes s)) := by
  constructor
  · intro h
    refine ⟨applyContext_fill_empty h, fun p => fillKind_not_mem ?_ rfl⟩
    simp [truthyPaint, h]
  · intro h
    have ht : truthyPaint s.stroke = false := by simp [truthyPaint, h]
    exact ⟨applyContext_stroke_empty h, fun p => strokeKind_not_mem ht rfl,
      fun q => strokeKind_not_mem ht rfl, fun d => strokeKind_not_mem ht rfl,
      fun q => strokeKind_not_mem ht rfl, fun k => strokeKind_not_mem ht rfl,
      fun j => strokeKind_not_mem ht rfl⟩

/-- Witness for C10 at concrete shapes with empty-string paints. -/
theorem applyContext_empty_paint_witness :
    applyContextAttributes { fill := some "", strokeWidth := 5 } =
      applyContextAttributes { fill := none, strokeWidth := 5 } ∧
    CtxOp.fillStyle "" ∉ applyContextAttributes { fill := some "", strokeWidth := 5 } ∧
    applyContextAttributes { stroke := some "", strokeWidth := 5 } =
      applyContextAttributes { strokeWidth := 5 } ∧
    CtxOp.lineWidth 5 ∉ applyContextAttributes { stroke := some "", strokeWidth := 5 } := by
  have h1 := (applyContext_empty_paint { fill := some "", strokeWidth := 5 }).1 rfl
  have h2 := (applyContext_empty_paint { stroke := some "", strokeWidth := 5 }).2 rfl
  exact ⟨h1.1, h1.2 "", h2.1, h2.2.2.1 5⟩

/-- Counterexample to C2 as stated: in a three-level chain where the leaf
redeclares `fill`, the *grandparent* (an ancestor, but not the immediate
parent) also declares `fill`, and the middle table does not,
`restoreOverriddenStyles` leaves the instance `fill` unchanged instead of
setting it to the leaf's own default `"red"`. -/
theorem restoreOverriddenStyles_ancestor_counterexample :
    isOverrideSpec threeLevelChain AttrName.fill ∧
    validChain threeLevelChain ∧
    ownLookup threeLevelChain AttrName.fill = some (StyleValue.paint (some "red")) ∧
    getAttr (restoreOverriddenStyles { fill := some "blue" } threeLevelChain) AttrName.fill =
      StyleValue.paint (some "blue") ∧
    StyleValue.paint (some "blue") ≠ StyleValue.paint (some "red") := by
  refine ⟨⟨by decide, ⟨[(.fill, .paint (some "black"))], by decide, by decide⟩⟩,
    by decide, by decide, by decide, by decide⟩

/-- C2 (amended): `restoreOverriddenStyles` sets, for every attribute name that
the variant's own table re-declares and that the *immediate parent's* table
also directly declares, the instance attribute to this variant's own default
value, and leaves every other instance attribute unchanged. -/
theorem restoreOverriddenStyles_immediate_parent (s : Shape) (c : Chain)
    (hc : validChain c) (b : AttrName) :
    (b ∈ ownKeys c → b ∈ protoOwnKeys c →
      ∀ v, ownLookup c b = some v → getAttr (restoreOverriddenStyles s c) b = v) ∧
    (¬(b ∈ ownKeys c ∧ b ∈ protoOwnKeys c) →
      getAttr (restoreOverriddenStyles s c) b = getAttr s b) := by
  have hfilter : ∀ x : AttrName, x ∈ (forInKeys c).filter
      (fun k => decide (k ∈ ownKeys c) && decide (k ∈ protoOwnKeys c)) ↔
      x ∈ forInKeys c ∧ x ∈ ownKeys c ∧ x ∈ protoOwnKeys c := by
    intro x
    rw [List.mem_filter]
    simp
  constructor
  · intro h1 h2 v hv
    have hcl := chainLookup_of_ownLookup hv
    have hflat : b ∈ (c.map layerKeys).flatten := by
      cases c with
      | nil => cases h1
      | cons L rest =>
        simp only [List.map_cons, List.flatten_cons, List.mem_append]
        exact Or.inl h1
    have hmem := (hfilter b).mpr ⟨(mem_forInKeys c b).mpr hflat, h1, h2⟩
    exact getAttr_foldl_mem hc hcl _ s hmem
  · intro h
    have hmem : b ∉ (forInKeys c).filter
        (fun k => decide (k ∈ ownKeys c) && decide (k ∈ protoOwnKeys c)) :=
      fun hb => h ⟨((hfilter b).mp hb).2.1, ((hfilter b).mp hb).2.2⟩
    exact getAttr_foldl_not_mem c b _ s hmem

/-- Witness for the amended C2: a subclass redeclaring `fill` over the base
table gets `fill` reset to its own default while `strokeWidth` stays. -/
theorem restoreOverriddenStyles_immediate_parent_witness :
    getAttr (restoreOverriddenStyles { fill := some "blue", strokeWidth := 7 } subFillChain)
      AttrName.fill = StyleValue.paint (some "red") ∧
    getAttr (restoreOverriddenStyles { fill := some "blue", strokeWidth := 7 } subFillChain)
      AttrName.strokeWidth = StyleValue.num 7 := by
  refine ⟨(restoreOverriddenStyles_immediate_parent _ subFillChain (by decide) .fill).1
      (by decide) (by decide) _ (by decide), ?_⟩
  have h := (restoreOverriddenStyles_immediate_parent { fill := some "blue", strokeWidth := 7 }
      subFillChain (by decide) .strokeWidth).2 (by decide)
  exact h.trans (by decide)

/-- C7: `restoreOwnStyles` sets exactly the attributes whose names are directly
declared in the variant's own default table to that table's default values, and
leaves every attribute whose default is only inherited untouched. -/
theorem restoreOwnStyles_spec (s : Shape) (c : Chain) (hc : validChain c) (b : AttrName) :
    (∀ v, ownLookup c b = some v → getAttr (restoreOwnStyles s c) b = v) ∧
    (ownLookup c b = none → getAttr (restoreOwnStyles s c) b = getAttr s b) := by
  constructor
  · intro v hv
    have hcl := chainLookup_of_ownLookup hv
    have hmem : b ∈ ownKeys c := by
      cases c with
      | nil => cases hv
      | cons L rest => exact mem_layerKeys_of_lookup hv
    exact getAttr_foldl_mem hc hcl (ownKeys c) s hmem
  · intro hv
    have hmem : b ∉ ownKeys c := by
      cases c with
      | nil => simp [ownKeys]
      | cons L rest => exact lookupLayer_eq_none.mp hv
    exact getAttr_foldl_not_mem c b (ownKeys c) s hmem

/-- Witness for C7: a subclass declaring only `{strokeWidth: 2}` resets
`strokeWidth` to `2` and leaves an inherited, customised `fill` untouched. -/
theorem restoreOwnStyles_spec_witness :
    getAttr (restoreOwnStyles { fill := some "blue", strokeWidth := 7 } subStrokeWidthChain)
      AttrName.strokeWidth = StyleValue.num 2 ∧
    getAttr (restoreOwnStyles { fill := some "blue", strokeWidth := 7 } subStrokeWidthChain)
      AttrName.fill = StyleValue.paint (some "blue") := by
  refine ⟨(restoreOwnStyles_spec _ subStrokeWidthChain (by decide) .strokeWidth).1
      _ (by decide), ?_⟩
  have h := (restoreOwnStyles_spec { fill := some "blue", strokeWidth := 7 }
      subStrokeWidthChain (by decide) .fill).2 (by decide)
  exact h.trans (by decide)

/-- C8: `restoreAllStyles` sets every attribute named in the variant's
effective resolved default table (own plus inherited, most-derived winning) to
the resolved default value, and leaves attributes outside the table untouched. -/
theorem restoreAllStyles_spec (s : Shape) (c : Chain) (hc : validChain c) (b : AttrName) :
    (∀ v, chainLookup c b = some v → getAttr (restoreAllStyles s c) b = v) ∧
    (chainLookup c b = none → getAttr (restoreAllStyles s c) b = getAttr s b) := by
  constructor
  · intro v hv
    have hmem : b ∈ forInKeys c := by
      rw [mem_forInKeys]
      by_contra hmem
      rw [← chainLookup_none_iff] at hmem
      rw [hmem] at hv
      cases hv
    exact getAttr_foldl_mem hc hv (forInKeys c) s hmem
  · intro hv
    have hmem : b ∉ forInKeys c := by
      rw [mem_forInKeys]
      exact (chainLookup_none_iff b c).mp hv
    exact getAttr_foldl_not_mem c b (forInKeys c) s hmem

/-- Witness for C8: the same subclass resets both `fill` (to the ancestor
default `black`) and `strokeWidth` (to its own `2`). -/
theorem restoreAllStyles_spec_witness :
    getAttr (restoreAllStyles { fill := some "blue", strokeWidth := 7 } subStrokeWidthChain)
      AttrName.strokeWidth = StyleValue.num 2 ∧
    getAttr (restoreAllStyles { fill := some "blue", strokeWidth := 7 } subStrokeWidthChain)
      AttrName.fill = StyleValue.paint (some "black") := by
  exact ⟨(restoreAllStyles_spec _ subStrokeWidthChain (by decide) .strokeWidth).1 _ (by decide),
    (restoreAllStyles_spec { fill := some "blue", strokeWidth := 7 } subStrokeWidthChain
      (by decide) .fill).1 _ (by decide)⟩

end AgScene
